/-
Verification of the encryption-detection pipeline (masters_thesis_code, Go).

Shallow embedding conventions:
  * Go float64 arithmetic on statistics is idealised over ℚ (exact rational
    arithmetic) except where IEEE special values (NaN, ±Inf) decide a claim;
    for those places a dedicated symbolic float type `GoFloat` over ℝ models
    the exact IEEE case analysis the code exercises.
  * Files are finite byte lists (`List (Fin 256)`); a sequential read of a
    block of size B returns `min B remaining` bytes, the deterministic
    behaviour of reads on regular files.
  * Go maps with byte keys and 0-default lookups are functions `Fin 256 → ℕ`.
-/
import Mathlib

set_option maxRecDepth 4000

namespace ThesisCode

/-! ### Decision fusion (main, src/unnamed/part_001 lines 236-314) -/

/-- Classification labels, from the iota constants in main (part_001 lines 36-40). -/
inductive Label
  | NoEncryption
  | FullDiskEncryption
  | FileBasedEncryption
  deriving DecidableEq, Repr

/-- Which branch of the two-stage decision tree produced the outcome:
the stage-0 signature gate, the five-test vote (normal or the defensive
error sub-branch), or the autocorrelation-only branch. -/
inductive StageTag
  | sigGate
  | vote
  | voteError
  | autocorrOnly
  deriving DecidableEq, Repr

/-- Result of the decision fusion: the label finally assigned (none in the
signature-gate branch, where the code only reports the found signatures and
never assigns `encryptionResult`), the branch taken, and the vote count when
the five-test vote ran. -/
structure Outcome where
  label : Option Label
  tag : StageTag
  votes : Option ℕ
  deriving DecidableEq, Repr

/-- Per-tool counts returned by EncToolDetection (signatures.go lines 68-176);
the six keys of the Go map, in declaration order. -/
structure EncToolCounts where
  geli : ℕ
  bitlocker : ℕ
  luksv1 : ℕ
  luksv2 : ℕ
  filevault : ℕ
  pgpwde : ℕ
  deriving DecidableEq, Repr

/-- The all-zero reference map `noEncToolResults` from main (part_001 lines 251-258). -/
def noEncToolResults : EncToolCounts := ⟨0, 0, 0, 0, 0, 0⟩

/-- CountTrueBools (common.go lines 38-46): number of true values among the flags. -/
def CountTrueBools (bools : List Bool) : ℕ :=
  bools.foldl (fun trueCount b => if b then trueCount + 1 else trueCount) 0

/-- The reference thresholds of main (part_001 lines 238-242), exact rationals. -/
def autocorrThreshold : ℚ := 125 / 1000

def ksTestThreshold : ℚ := 1 / 10

def compressionThreshold : ℚ := 11 / 10

def signatureThreshold : ℚ := 150

def entropyThreshold : ℚ := 795 / 100

/-- Decision fusion of main (part_001 lines 263-314), as a pure function of the
collaborator results: the encryption-tool counts, the five statistics (rational
idealisation of float64) and the filesystem-probe string.  Mirrors the source:
stage-0 gate when the count map differs from the all-zero map; otherwise the
`slices.Contains([]string{"", "unknown"}, partedResult)` test selects either the
five-test vote (`contains` true) or the autocorrelation-only branch. -/
def mainDecision (encToolResult : EncToolCounts)
    (autocorrResult ksStatistic compressionStat signatureStat entropyStat : ℚ)
    (partedResult : String) : Outcome :=
  if encToolResult ≠ noEncToolResults then
    ⟨none, StageTag.sigGate, none⟩
  else if partedResult = "" ∨ partedResult = "unknown" then
    let autocorrTrue := decide (autocorrResult ≤ autocorrThreshold)
    let ksTrue := decide (ksStatistic ≤ ksTestThreshold)
    let compressionTrue := decide (compressionStat ≤ compressionThreshold)
    let signatureTrue := decide (signatureStat ≤ signatureThreshold)
    let entropyTrue := decide (entropyStat ≥ entropyThreshold)
    let finalResult := CountTrueBools [autocorrTrue, ksTrue, compressionTrue, signatureTrue, entropyTrue]
    if finalResult ≤ 2 then
      ⟨some Label.NoEncryption, StageTag.vote, some finalResult⟩
    else if finalResult > 3 ∧ finalResult ≤ 5 then
      ⟨some Label.FullDiskEncryption, StageTag.vote, some finalResult⟩
    else
      ⟨some Label.NoEncryption, StageTag.voteError, some finalResult⟩
  else if autocorrResult ≤ autocorrThreshold then
    ⟨some Label.FileBasedEncryption, StageTag.autocorrOnly, none⟩
  else
    ⟨some Label.NoEncryption, StageTag.autocorrOnly, none⟩

/-- With stats making exactly the autocorrelation, KS and compression flags true
(voteCount = 3), no encryption-tool signature and no recognized filesystem, the
fusion takes the defensive error branch and classifies NoEncryption: the guard
in the source is `finalResult > 3 && finalResult <= 5`, so a vote count of 3
falls through to the error branch (part_001 lines 295-304). -/
theorem c1_voteCount_three_errorBranch :
    mainDecision noEncToolResults 0 0 1 200 0 "" =
      ⟨some Label.NoEncryption, StageTag.voteError, some 3⟩ := by
  rw [mainDecision]
  rw [decide_eq_true (show (0:ℚ) ≤ autocorrThreshold by norm_num [autocorrThreshold]),
    decide_eq_true (show (0:ℚ) ≤ ksTestThreshold by norm_num [ksTestThreshold]),
    decide_eq_true (show (1:ℚ) ≤ compressionThreshold by norm_num [compressionThreshold]),
    decide_eq_false (show ¬((200:ℚ) ≤ signatureThreshold) by norm_num [signatureThreshold]),
    decide_eq_false (show ¬((0:ℚ) ≥ entropyThreshold) by norm_num [entropyThreshold])]
  norm_num [CountTrueBools]

/-- When the filesystem probe reports a recognized filesystem type ("ext4", not
in {"", "unknown"}), the fusion does NOT run the five-test vote: it takes the
autocorrelation-only branch (here classifying FileBasedEncryption since the
autocorrelation statistic 0 is below the 0.125 threshold).  This refutes the
claim that a recognized filesystem leads to the five-test vote of Stage 2b:
the code's `contains` test (membership in {"", "unknown"}) guards the vote
branch, the opposite of the claimed association. -/
theorem c2_recognizedFs_takes_autocorrOnly :
    mainDecision noEncToolResults 0 0 1 200 0 "ext4" =
      ⟨some Label.FileBasedEncryption, StageTag.autocorrOnly, none⟩ ∧
    "ext4" ≠ "" ∧ "ext4" ≠ "unknown" ∧
    StageTag.autocorrOnly ≠ StageTag.vote ∧ StageTag.autocorrOnly ≠ StageTag.voteError := by
  refine ⟨?_, by decide, by decide, by decide, by decide⟩
  rw [mainDecision, if_neg (by simp), if_neg (by decide),
    if_pos (show (0:ℚ) ≤ autocorrThreshold by norm_num [autocorrThreshold])]

/-- Amended filesystem gate: when no encryption-tool signature was found, a
probe result in {"", "unknown"} (no recognized filesystem) leads to the
five-test vote, while a recognized filesystem string leads to the
autocorrelation-only branch, which classifies FileBasedEncryption when the
autocorrelation flag is true and NoEncryption otherwise. -/
theorem c2_amended_filesystem_gate (a k c s e : ℚ) (parted : String) :
    (parted = "" ∨ parted = "unknown" →
      (mainDecision noEncToolResults a k c s e parted).tag = StageTag.vote ∨
      (mainDecision noEncToolResults a k c s e parted).tag = StageTag.voteError) ∧
    (¬(parted = "" ∨ parted = "unknown") →
      mainDecision noEncToolResults a k c s e parted =
        if a ≤ autocorrThreshold then
          ⟨some Label.FileBasedEncryption, StageTag.autocorrOnly, none⟩
        else
          ⟨some Label.NoEncryption, StageTag.autocorrOnly, none⟩) := by
  constructor
  · intro h
    rw [mainDecision, if_neg (by simp), if_pos h]
    by_cases h2 : CountTrueBools [decide (a ≤ autocorrThreshold), decide (k ≤ ksTestThreshold),
        decide (c ≤ compressionThreshold), decide (s ≤ signatureThreshold),
        decide (e ≥ entropyThreshold)] ≤ 2
    · rw [if_pos h2]; left; rfl
    · rw [if_neg h2]
      by_cases h3 : CountTrueBools [decide (a ≤ autocorrThreshold), decide (k ≤ ksTestThreshold),
          decide (c ≤ compressionThreshold), decide (s ≤ signatureThreshold),
          decide (e ≥ entropyThreshold)] > 3 ∧
          CountTrueBools [decide (a ≤ autocorrThreshold), decide (k ≤ ksTestThreshold),
          decide (c ≤ compressionThreshold), decide (s ≤ signatureThreshold),
          decide (e ≥ entropyThreshold)] ≤ 5
      · rw [if_pos h3]; left; rfl
      · rw [if_neg h3]; right; rfl
  · intro h
    rw [mainDecision, if_neg (by simp), if_neg h]

/-- Witness for the amended filesystem gate at concrete probe strings. -/
theorem c2_amended_filesystem_gate_witness :
    ((mainDecision noEncToolResults 0 0 1 200 0 "").tag = StageTag.vote ∨
     (mainDecision noEncToolResults 0 0 1 200 0 "").tag = StageTag.voteError) ∧
    mainDecision noEncToolResults 7 0 1 200 0 "ntfs" =
      ⟨some Label.NoEncryption, StageTag.autocorrOnly, none⟩ := by
  constructor
  · exact (c2_amended_filesystem_gate 0 0 1 200 0 "").1 (Or.inl rfl)
  · rw [(c2_amended_filesystem_gate 7 0 1 200 0 "ntfs").2 (by decide)]
    rw [if_neg (show ¬((7:ℚ) ≤ autocorrThreshold) by norm_num [autocorrThreshold])]

/-! ### Compression test (compression.go lines 29-87) -/

/-- Result of performCompression (compression.go lines 29-40): the compressed
byte count printed by the external pipeline, converted to float64; the
external invocation itself is a collaborator, so its integer output is a
parameter. -/
def performCompression (outputBytes : ℤ) : ℚ := (outputBytes : ℚ)

/-- CompressionTest (compression.go lines 53-87), parameterised by the result
of checkCompressionToolAvailability (`toolsAvailable` false models a missing
compressor binary on PATH), the stat'ed file size, and the five compressor
output byte counts.  A missing tool short-circuits to 0.0 after printing the
error to stdout; otherwise the statistic is the arithmetic mean of the five
ratios fileSize/compressedSize. -/
def CompressionTest (toolsAvailable : Bool) (fileSize : ℚ)
    (gzipOut lz4Out bz2Out zstdOut xzOut : ℤ) : ℚ :=
  if !toolsAvailable then 0
  else
    (fileSize / performCompression gzipOut + fileSize / performCompression lz4Out +
      fileSize / performCompression bz2Out + fileSize / performCompression zstdOut +
      fileSize / performCompression xzOut) / 5

/-- With a compressor binary missing, CompressionTest returns statistic 0, and
in the fusion the degraded statistic satisfies 0 ≤ 1.1, so the compression vote
flag is TRUE, not false: with every other test voting false, the vote count is
1, showing the degraded compression test contributed a positive vote.  This
refutes the claim that the degraded test is "treated as flag=false". -/
theorem c3_degraded_compression_votes_true :
    CompressionTest false 1000 1 1 1 1 1 = 0 ∧
    (mainDecision noEncToolResults 1 1 (CompressionTest false 1000 1 1 1 1 1) 200 0 "").votes =
      some 1 := by
  have h0 : CompressionTest false 1000 1 1 1 1 1 = 0 := rfl
  refine ⟨h0, ?_⟩
  rw [h0, mainDecision]
  rw [decide_eq_false (show ¬((1:ℚ) ≤ autocorrThreshold) by norm_num [autocorrThreshold]),
    decide_eq_false (show ¬((1:ℚ) ≤ ksTestThreshold) by norm_num [ksTestThreshold]),
    decide_eq_true (show (0:ℚ) ≤ compressionThreshold by norm_num [compressionThreshold]),
    decide_eq_false (show ¬((200:ℚ) ≤ signatureThreshold) by norm_num [signatureThreshold]),
    decide_eq_false (show ¬((0:ℚ) ≥ entropyThreshold) by norm_num [entropyThreshold])]
  norm_num [CountTrueBools]

/-- Amended failure semantics: a missing compressor binary makes CompressionTest
return statistic 0 without aborting (the pipeline continues), but the 0
statistic makes the compression vote flag true under the ≤ 1.1 threshold, and
the degradation reason is only printed to standard output, not returned to the
caller (the return type is a bare float64). -/
theorem c3_amended_degradation (fileSize : ℚ) (g l b z x : ℤ) :
    CompressionTest false fileSize g l b z x = 0 ∧
    decide (CompressionTest false fileSize g l b z x ≤ compressionThreshold) = true := by
  refine ⟨rfl, ?_⟩
  rw [show CompressionTest false fileSize g l b z x = 0 from rfl]
  exact decide_eq_true (by norm_num [compressionThreshold])

/-! ### Histogram builders (common.go lines 48-195) -/

/-- countBytes (common.go lines 48-54): per-byte occurrence counts of a block;
a key absent from the Go map reads as 0, so the counter is total function. -/
def countBytes (data : List (Fin 256)) : Fin 256 → ℕ := fun b => data.count b

/-- mergeCounterLists (common.go lines 56-65): pointwise sum of two counters. -/
def mergeCounterLists (counter1 counter2 : Fin 256 → ℕ) : Fin 256 → ℕ :=
  fun b => counter1 b + counter2 b

/-- Floor of the base-2 logarithm (the int(math.Floor(math.Log2(x))) idiom of
common.go), as a fuelled structural recursion so that concrete instances
kernel-evaluate; agrees with the real log2 floor for every positive natural. -/
def log2Aux : ℕ → ℕ → ℕ
  | 0, _ => 0
  | fuel + 1, n => if 2 ≤ n then log2Aux fuel (n / 2) + 1 else 0

/-- Floor of log2 for a natural number (0 for inputs 0 and 1). -/
def flog2 (n : ℕ) : ℕ := log2Aux n n

/-- Effective block size of CreateFileCounter (common.go lines 106-110): a
source smaller than the requested block size shrinks the block to
`1 << floor(log2(fsize))`, the largest power of two not exceeding the size. -/
def effBlockSize (fsize blockSize : ℕ) : ℕ :=
  if fsize < blockSize then 2 ^ flog2 fsize else blockSize

/-- Effective block size of CreateFileCounterGoro (common.go lines 160-162):
the source writes `2 ^ (...)`, which in Go is XOR, not exponentiation, so the
result is `2 XOR floor(log2(fsize))`. -/
def goroEffBlockSize (fsize blockSize : ℕ) : ℕ :=
  if fsize < blockSize then 2 ^^^ flog2 fsize else blockSize

/-- Read loop of CreateFileCounter (common.go lines 118-132): reads up to
blockSize bytes at a time, tallies exactly the bytes read
(`buffer[:bytesRead]`) and accumulates the byte count; a zero-length read
(blockSize 0 or end of data) stops the loop. -/
def counterLoop (blockSize : ℕ) (data : List (Fin 256)) (totalCounter : Fin 256 → ℕ)
    (readBytesCount : ℕ) : (Fin 256 → ℕ) × ℕ :=
  if h : blockSize = 0 ∨ data = [] then (totalCounter, readBytesCount)
  else
    counterLoop blockSize (data.drop blockSize)
      (mergeCounterLists totalCounter (countBytes (data.take blockSize)))
      (readBytesCount + (data.take blockSize).length)
termination_by data.length
decreasing_by
  push_neg at h
  simp only [List.length_drop]
  have hd : data.length ≠ 0 := fun hc => h.2 (List.length_eq_zero.mp hc)
  omega

/-- CreateFileCounter (common.go lines 89-137): histogram and total byte count
of a file, using the effective block size. -/
def CreateFileCounter (file : List (Fin 256)) (blockSize : ℕ) : (Fin 256 → ℕ) × ℕ :=
  counterLoop (effBlockSize file.length blockSize) file (fun _ => 0) 0

/-- Read loop of CreateFileCounterGoro (common.go lines 168-186): a short read
(`len(buffer) > bytesRead`) adds the bytes read to the running total but breaks
BEFORE tallying them into the counter; a full read tallies the whole buffer. -/
def goroLoop (blockSize : ℕ) (data : List (Fin 256)) (totalCounter : Fin 256 → ℕ)
    (readBytesCount : ℕ) : (Fin 256 → ℕ) × ℕ :=
  if h : blockSize = 0 ∨ data = [] then (totalCounter, readBytesCount)
  else if min blockSize data.length < blockSize then
    (totalCounter, readBytesCount + min blockSize data.length)
  else
    goroLoop blockSize (data.drop blockSize)
      (mergeCounterLists totalCounter (countBytes (data.take blockSize)))
      (readBytesCount + min blockSize data.length)
termination_by data.length
decreasing_by
  push_neg at h
  simp only [List.length_drop]
  have hd : data.length ≠ 0 := fun hc => h.2 (List.length_eq_zero.mp hc)
  omega

/-- CreateFileCounterGoro (common.go lines 139-195): the goroutine variant of
the histogram builder (result fields of the ByteCounter it sends). -/
def CreateFileCounterGoro (file : List (Fin 256)) (blockSize : ℕ) : (Fin 256 → ℕ) × ℕ :=
  goroLoop (goroEffBlockSize file.length blockSize) file (fun _ => 0) 0

lemma sum_countBytes (l : List (Fin 256)) : (∑ b : Fin 256, countBytes l b) = l.length := by
  induction l with
  | nil => simp [countBytes]
  | cons x xs ih =>
    simp only [countBytes, List.count_cons] at *
    rw [Finset.sum_add_distrib, ih]
    simp

lemma sum_mergeCounterLists (c1 c2 : Fin 256 → ℕ) :
    (∑ b : Fin 256, mergeCounterLists c1 c2 b) = (∑ b : Fin 256, c1 b) + ∑ b : Fin 256, c2 b := by
  simpa [mergeCounterLists] using Finset.sum_add_distrib

lemma counterLoop_sum (blockSize : ℕ) (data : List (Fin 256)) (c : Fin 256 → ℕ) (n : ℕ) :
    (∑ b : Fin 256, (counterLoop blockSize data c n).1 b) + n =
      (∑ b : Fin 256, c b) + (counterLoop blockSize data c n).2 := by
  rw [counterLoop]
  by_cases h : blockSize = 0 ∨ data = []
  · rw [dif_pos h]
  · rw [dif_neg h]
    have ih := counterLoop_sum blockSize (data.drop blockSize)
      (mergeCounterLists c (countBytes (data.take blockSize)))
      (n + (data.take blockSize).length)
    rw [sum_mergeCounterLists, sum_countBytes] at ih
    omega
termination_by data.length
decreasing_by
  push_neg at h
  simp only [List.length_drop]
  have hd : data.length ≠ 0 := fun hc => h.2 (List.length_eq_zero.mp hc)
  omega

lemma goroLoop_props (blockSize : ℕ) (data : List (Fin 256)) (c : Fin 256 → ℕ) (n : ℕ)
    (hB : blockSize ≠ 0) :
    (∑ b : Fin 256, (goroLoop blockSize data c n).1 b) =
      (∑ b : Fin 256, c b) + (data.length - data.length % blockSize) ∧
    (goroLoop blockSize data c n).2 = n + data.length := by
  rw [goroLoop]
  by_cases h : blockSize = 0 ∨ data = []
  · rcases h with h | h
    · exact absurd h hB
    · rw [dif_pos (Or.inr h)]
      simp [h]
  · rw [dif_neg h]
    push_neg at h
    have hlen : data.length ≠ 0 := fun hc => h.2 (List.length_eq_zero.mp hc)
    by_cases hshort : min blockSize data.length < blockSize
    · rw [if_pos hshort]
      have hlt : data.length < blockSize := by omega
      constructor
      · rw [Nat.mod_eq_of_lt hlt]
        simp
      · simp
        omega
    · rw [if_neg hshort]
      have hge : blockSize ≤ data.length := by omega
      have ih := goroLoop_props blockSize (data.drop blockSize)
        (mergeCounterLists c (countBytes (data.take blockSize)))
        (n + min blockSize data.length) hB
      rw [sum_mergeCounterLists, sum_countBytes] at ih
      have hdrop : (data.drop blockSize).length = data.length - blockSize :=
        List.length_drop _ _
      have htake : (data.take blockSize).length = blockSize := by
        rw [List.length_take]
        omega
      have hmod : (data.length - blockSize) % blockSize = data.length % blockSize := by
        conv_rhs => rw [show data.length = (data.length - blockSize) + blockSize by omega]
        rw [Nat.add_mod_right]
      rcases ih with ⟨ih1, ih2⟩
      constructor
      · rw [ih1, hdrop, htake, hmod]
        have hmle : data.length % blockSize ≤ data.length - blockSize := by
          have := Nat.mod_le (data.length - blockSize) blockSize
          omega
        omega
      · rw [ih2, hdrop]
        have : min blockSize data.length = blockSize := by omega
        omega
termination_by data.length
decreasing_by
  push_neg at h
  simp only [List.length_drop]
  have hd : data.length ≠ 0 := fun hc => h.2 (List.length_eq_zero.mp hc)
  omega

set_option maxRecDepth 4000 in
/-- CreateFileCounterGoro on the 3-byte file [0,0,0] with block size 2: the
trailing 1-byte short read is added to totalBytesRead (3) but never tallied,
so the histogram sums to 2 ≠ 3, refuting the claimed invariant
`sum(counts) == totalBytesRead` for this builder. -/
theorem c7_goro_breaks_invariant :
    (∑ b : Fin 256, (CreateFileCounterGoro [0, 0, 0] 2).1 b) = 2 ∧
    (CreateFileCounterGoro [0, 0, 0] 2).2 = 3 := by
  have heff : goroEffBlockSize ([0, 0, 0] : List (Fin 256)).length 2 = 2 := by
    simp [goroEffBlockSize]
  have h := goroLoop_props 2 ([0, 0, 0] : List (Fin 256)) (fun _ => 0) 0 (by omega)
  rw [CreateFileCounterGoro, heff]
  exact ⟨by rw [h.1]; simp, by rw [h.2]; simp⟩

/-- Amended histogram invariant: CreateFileCounter satisfies
`sum(counts) = totalBytesRead` for every nonempty file and block size, while
CreateFileCounterGoro reports totalBytesRead = file length but tallies only the
full blocks: its histogram sums to `length - length % effectiveBlockSize`, so
the claimed invariant holds for it exactly when no trailing short read occurs. -/
theorem c7_amended_histogram_sums (file : List (Fin 256)) (blockSize : ℕ)
    (hfile : file ≠ []) :
    (∑ b : Fin 256, (CreateFileCounter file blockSize).1 b) =
      (CreateFileCounter file blockSize).2 ∧
    (goroEffBlockSize file.length blockSize ≠ 0 →
      (CreateFileCounterGoro file blockSize).2 = file.length ∧
      (∑ b : Fin 256, (CreateFileCounterGoro file blockSize).1 b) =
        file.length - file.length % goroEffBlockSize file.length blockSize) := by
  constructor
  · have h := counterLoop_sum (effBlockSize file.length blockSize) file (fun _ => 0) 0
    simpa [CreateFileCounter] using h
  · intro hB
    have h := goroLoop_props (goroEffBlockSize file.length blockSize) file (fun _ => 0) 0 hB
    rw [CreateFileCounterGoro]
    exact ⟨by rw [h.2]; omega, by rw [h.1]; simp⟩

/-- Witness for the amended histogram invariant on the 1-byte file [0] with
requested block size 2. -/
theorem c7_amended_histogram_sums_witness :
    (∑ b : Fin 256, (CreateFileCounter [0] 2).1 b) = (CreateFileCounter [0] 2).2 ∧
    (CreateFileCounterGoro [0] 2).2 = 1 := by
  have h := c7_amended_histogram_sums [0] 2 (by decide)
  refine ⟨h.1, ?_⟩
  have heff : goroEffBlockSize ([0] : List (Fin 256)).length 2 ≠ 0 := by
    rw [show ([0] : List (Fin 256)).length = 1 from rfl, goroEffBlockSize,
      if_pos (by norm_num), show flog2 1 = 0 from rfl, Nat.xor_zero]
    omega
  simpa using (h.2 heff).1

/-- CreateFileCounterGoro computes its reduced block size with `2 ^ x`, Go XOR
(the comment in CreateFileCounter, common.go line 108, marks this as the bug:
"Use bit shifting for power of 2, not XOR"): for a 5-byte source the Goro
builder gets 2 XOR floor(log2 5) = 2 XOR 2 = 0 instead of the largest power of
two not exceeding 5, which is 4 — the value CreateFileCounter's corrected
`1 << floor(log2(fsize))` produces. -/
theorem c8_goro_xor_block_size :
    goroEffBlockSize 5 1048576 = 0 ∧ effBlockSize 5 1048576 = 4 ∧
    2 ^ flog2 5 ≤ 5 ∧ 5 < 2 ^ (flog2 5 + 1) := by
  have h5 : flog2 5 = 2 := rfl
  refine ⟨?_, ?_, ?_, ?_⟩
  · rw [goroEffBlockSize, if_pos (by norm_num), h5, Nat.xor_self]
  · rw [effBlockSize, if_pos (by norm_num), h5]; norm_num
  · rw [h5]; norm_num
  · rw [h5]; norm_num

/-! ### Kolmogorov test (src/unnamed/part_002 lines 64-97) -/

/-- Running cumulative sums, as built by the append-per-iteration loop of
KsTest: the element at position i is the sum of the first i+1 inputs. -/
def cumsumFrom (acc : ℚ) : List ℚ → List ℚ
  | [] => []
  | x :: xs => (acc + x) :: cumsumFrom (acc + x) xs

/-- Byte values 0..255 in ascending numeric order — the explicit
`for i := 0; i < 256; i++` iteration of the source, not map iteration order. -/
def byteValues : List (Fin 256) := List.finRange 256

/-- Empirical CDF of KsTest (part_002 lines 71-76): cumulative observed/total,
float64 division idealised over ℚ. -/
def empiricalCDF (totalCounter : Fin 256 → ℕ) (readBytesCount : ℕ) : List ℚ :=
  cumsumFrom 0 (byteValues.map fun i => (totalCounter i : ℚ) / (readBytesCount : ℚ))

/-- Theoretical CDF of KsTest (part_002 lines 71-76): cumulative
`total/256/total` steps. -/
def theoreticalCDF (readBytesCount : ℕ) : List ℚ :=
  cumsumFrom 0 (byteValues.map fun _ => (readBytesCount : ℚ) / 256 / (readBytesCount : ℚ))

/-- Absolute CDF differences of KsTest (part_002 lines 78-82). -/
def ksDifferences (totalCounter : Fin 256 → ℕ) (readBytesCount : ℕ) : List ℚ :=
  List.zipWith (fun e th => |e - th|) (empiricalCDF totalCounter readBytesCount)
    (theoreticalCDF readBytesCount)

/-- One step of the maximum search of KsTest (part_002 lines 86-93): a strictly
greater value replaces the current best, so the FIRST position attaining the
maximum is kept. -/
def ksArgmaxStep (best : ℚ × ℕ) (p : ℕ × ℚ) : ℚ × ℕ :=
  if p.2 > best.1 then (p.2, p.1) else best

/-- Maximum difference and its position (part_002 lines 83-93), starting from
ksDifferences[0] at position 0 (the list always has 256 elements). -/
def ksMax (diffs : List ℚ) : ℚ × ℕ :=
  diffs.enum.foldl ksArgmaxStep (diffs.headD 0, 0)

/-- KsTest (part_002 lines 64-97): statistic, maxDiffPosition, readBytesCount
and the two critical values 1.63/√N and 1.36/√N (real-valued). -/
noncomputable def KsTest (totalCounter : Fin 256 → ℕ) (readBytesCount : ℕ) :
    ℚ × ℕ × ℕ × ℝ × ℝ :=
  let m := ksMax (ksDifferences totalCounter readBytesCount)
  (m.1, m.2, readBytesCount,
    1.63 / Real.sqrt readBytesCount, 1.36 / Real.sqrt readBytesCount)

lemma cumsumFrom_length (a : ℚ) (xs : List ℚ) : (cumsumFrom a xs).length = xs.length := by
  induction xs generalizing a with
  | nil => rfl
  | cons x xs ih => simp [cumsumFrom, ih]

lemma cumsumFrom_bounds (xs : List ℚ) (hpos : ∀ x ∈ xs, 0 ≤ x) (a : ℚ) :
    ∀ y ∈ cumsumFrom a xs, a ≤ y ∧ y ≤ a + xs.sum := by
  induction xs generalizing a with
  | nil => simp [cumsumFrom]
  | cons x xs ih =>
    intro y hy
    have hx : 0 ≤ x := hpos x (List.mem_cons_self x xs)
    have hxs : ∀ z ∈ xs, 0 ≤ z := fun z hz => hpos z (List.mem_cons_of_mem x hz)
    have hsum : 0 ≤ xs.sum := List.sum_nonneg hxs
    rcases List.mem_cons.mp hy with h | h
    · subst h
      constructor
      · linarith
      · simp only [List.sum_cons]
        linarith
    · have := ih hxs (a + x) y h
      constructor
      · linarith [this.1]
      · simp only [List.sum_cons]
        linarith [this.2]

lemma zipWith_mem_exists {α β γ : Type} (f : α → β → γ) :
    ∀ (l1 : List α) (l2 : List β), ∀ y ∈ List.zipWith f l1 l2,
      ∃ a ∈ l1, ∃ b ∈ l2, y = f a b := by
  intro l1
  induction l1 with
  | nil => simp
  | cons x xs ih =>
    intro l2 y hy
    cases l2 with
    | nil => simp at hy
    | cons z zs =>
      rcases List.mem_cons.mp hy with h | h
      · exact ⟨x, List.mem_cons_self x xs, z, List.mem_cons_self z zs, h⟩
      · obtain ⟨a, ha, b, hb, hab⟩ := ih zs y h
        exact ⟨a, List.mem_cons_of_mem x ha, b, List.mem_cons_of_mem z hb, hab⟩

lemma ksArgmax_foldl (l : List (ℕ × ℚ)) (b : ℚ) (i : ℕ) :
    (l.foldl ksArgmaxStep (b, i) = (b, i) ∨
      ((l.foldl ksArgmaxStep (b, i)).2, (l.foldl ksArgmaxStep (b, i)).1) ∈ l) ∧
    b ≤ (l.foldl ksArgmaxStep (b, i)).1 ∧
    ∀ p ∈ l, p.2 ≤ (l.foldl ksArgmaxStep (b, i)).1 := by
  induction l generalizing b i with
  | nil => simp
  | cons q l ih =>
    simp only [List.foldl_cons]
    by_cases hq : q.2 > b
    · rw [show ksArgmaxStep (b, i) q = (q.2, q.1) from if_pos hq]
      obtain ⟨hmem, hle, hall⟩ := ih q.2 q.1
      refine ⟨?_, ?_, ?_⟩
      · right
        rcases hmem with h | h
        · rw [h]
          exact List.mem_cons_self q l
        · exact List.mem_cons_of_mem q h
      · linarith
      · intro p hp
        rcases List.mem_cons.mp hp with h | h
        · rw [h]; exact hle
        · exact hall p h
    · rw [show ksArgmaxStep (b, i) q = (b, i) from if_neg hq]
      push_neg at hq
      obtain ⟨hmem, hle, hall⟩ := ih b i
      refine ⟨?_, hle, ?_⟩
      · rcases hmem with h | h
        · exact Or.inl h
        · exact Or.inr (List.mem_cons_of_mem q h)
      · intro p hp
        rcases List.mem_cons.mp hp with h | h
        · rw [h]; linarith
        · exact hall p h

lemma empiricalCDF_terms_sum (c : Fin 256 → ℕ) (t : ℕ) (hsum : (∑ b : Fin 256, c b) = t)
    (ht : 0 < t) :
    (byteValues.map fun i => (c i : ℚ) / (t : ℚ)).sum = 1 := by
  rw [byteValues, ← Fin.sum_univ_def, ← Finset.sum_div]
  rw [show (∑ b : Fin 256, (c b : ℚ)) = ((∑ b : Fin 256, c b : ℕ) : ℚ) by push_cast; ring]
  rw [hsum]
  field_simp

lemma theoreticalCDF_terms_sum (t : ℕ) (ht : 0 < t) :
    (byteValues.map fun _ => (t : ℚ) / 256 / (t : ℚ)).sum = 1 := by
  rw [byteValues, ← Fin.sum_univ_def, Finset.sum_const, Finset.card_univ, Fintype.card_fin]
  have htq : (t : ℚ) ≠ 0 := by positivity
  field_simp

lemma ksDifferences_bounds (c : Fin 256 → ℕ) (t : ℕ) (hsum : (∑ b : Fin 256, c b) = t)
    (ht : 0 < t) : ∀ d ∈ ksDifferences c t, 0 ≤ d ∧ d ≤ 1 := by
  have hposE : ∀ x ∈ byteValues.map fun i => (c i : ℚ) / (t : ℚ), 0 ≤ x := by
    intro x hx
    obtain ⟨i, _, hi⟩ := List.mem_map.mp hx
    rw [← hi]
    exact div_nonneg (Nat.cast_nonneg _) (Nat.cast_nonneg _)
  have hposT : ∀ x ∈ byteValues.map fun _ => (t : ℚ) / 256 / (t : ℚ), 0 ≤ x := by
    intro x hx
    obtain ⟨i, _, hi⟩ := List.mem_map.mp hx
    rw [← hi]
    exact div_nonneg (div_nonneg (Nat.cast_nonneg _) (by norm_num)) (Nat.cast_nonneg _)
  intro d hd
  rw [ksDifferences] at hd
  obtain ⟨e, he, th, hth, hdef⟩ := zipWith_mem_exists _ _ _ d hd
  rw [empiricalCDF] at he
  rw [theoreticalCDF] at hth
  have hemp : 0 ≤ e ∧ e ≤ 1 := by
    have h := cumsumFrom_bounds _ hposE 0 e he
    rw [empiricalCDF_terms_sum c t hsum ht] at h
    simpa using h
  have htheo : 0 ≤ th ∧ th ≤ 1 := by
    have h := cumsumFrom_bounds _ hposT 0 th hth
    rw [theoreticalCDF_terms_sum t ht] at h
    simpa using h
  subst hdef
  constructor
  · exact abs_nonneg _
  · rw [abs_sub_le_iff]
    constructor
    · linarith [hemp.2, htheo.1]
    · linarith [htheo.2, hemp.1]

lemma ksDifferences_length (c : Fin 256 → ℕ) (t : ℕ) : (ksDifferences c t).length = 256 := by
  rw [ksDifferences, List.length_zipWith, empiricalCDF, theoreticalCDF,
    cumsumFrom_length, cumsumFrom_length]
  simp [byteValues]

/-- KsTest on any valid histogram (counts summing to a positive total): the
statistic lies in [0,1], maxDiffPosition indexes an entry of the difference
list equal to the statistic, and every difference is at most the statistic
(the position is the first argmax); the computation iterates byte values
0..255 in ascending order and is a pure function of the histogram. -/
theorem c9_ksTest_bounds_and_argmax (c : Fin 256 → ℕ) (t : ℕ)
    (hsum : (∑ b : Fin 256, c b) = t) (ht : 0 < t) :
    0 ≤ (KsTest c t).1 ∧ (KsTest c t).1 ≤ 1 ∧
    (ksDifferences c t).get? (KsTest c t).2.1 = some (KsTest c t).1 ∧
    ∀ d ∈ ksDifferences c t, d ≤ (KsTest c t).1 := by
  have hlen : (ksDifferences c t).length = 256 := ksDifferences_length c t
  have hne : ksDifferences c t ≠ [] := by
    intro h
    rw [h] at hlen
    simp at hlen
  have hbounds := ksDifferences_bounds c t hsum ht
  have hKs1 : (KsTest c t).1 = (ksMax (ksDifferences c t)).1 := by
    simp only [KsTest]
  have hKs2 : (KsTest c t).2.1 = (ksMax (ksDifferences c t)).2 := by
    simp only [KsTest]
  obtain ⟨hmem, hle, hall⟩ :=
    ksArgmax_foldl (ksDifferences c t).enum ((ksDifferences c t).headD 0) 0
  have hfold : ksMax (ksDifferences c t) =
      (ksDifferences c t).enum.foldl ksArgmaxStep ((ksDifferences c t).headD 0, 0) := rfl
  have hget0 : (ksDifferences c t).get? 0 = some ((ksDifferences c t).headD 0) := by
    cases hd : ksDifferences c t with
    | nil => exact absurd hd hne
    | cons x xs => simp
  have hgetr : (ksDifferences c t).get? (ksMax (ksDifferences c t)).2 =
      some (ksMax (ksDifferences c t)).1 := by
    rcases hmem with h | h
    · rw [hfold, h]
      exact hget0
    · rw [hfold]
      exact List.mk_mem_enum_iff_get?.mp h
  have hstatmem : (ksMax (ksDifferences c t)).1 ∈ ksDifferences c t :=
    List.get?_mem hgetr
  refine ⟨?_, ?_, ?_, ?_⟩
  · rw [hKs1]
    exact (hbounds _ hstatmem).1
  · rw [hKs1]
    exact (hbounds _ hstatmem).2
  · rw [hKs1, hKs2]
    exact hgetr
  · intro d hd
    rw [hKs1, hfold]
    obtain ⟨n, hn⟩ := List.mem_iff_get?.mp hd
    exact hall (n, d) (List.mk_mem_enum_iff_get?.mpr hn)

/-- Witness for the KsTest bounds at the uniform 256-byte histogram. -/
theorem c9_ksTest_bounds_and_argmax_witness :
    0 ≤ (KsTest (fun _ => 1) 256).1 ∧ (KsTest (fun _ => 1) 256).1 ≤ 1 ∧
    (ksDifferences (fun _ => 1) 256).get? (KsTest (fun _ => 1) 256).2.1 =
      some (KsTest (fun _ => 1) 256).1 := by
  have h := c9_ksTest_bounds_and_argmax (fun _ => 1) 256 (by simp) (by norm_num)
  exact ⟨h.1, h.2.1, h.2.2.1⟩

/-! ### IEEE special-value model for entropy and chi-squared
(EntropyEstimation, part_001 lines 399-407; ChiSqTest, part_000 lines 25-38)

These two functions are the places where the spec's error-handling claims
hinge on IEEE-754 special values, so their float64 arithmetic is modelled by
a symbolic type distinguishing NaN, signed infinities and finite values (the
finite part idealised over ℝ; negative zero never arises in the operations
these functions perform on their inputs and is identified with zero). -/

/-- Symbolic float64 value: NaN, ±infinity (true = +∞), or a finite real. -/
inductive GoFloat
  | nan : GoFloat
  | inf : Bool → GoFloat
  | val : ℝ → GoFloat

open Classical in
/-- IEEE addition on symbolic floats: NaN absorbs, opposite infinities give
NaN. -/
noncomputable def addF : GoFloat → GoFloat → GoFloat
  | GoFloat.nan, _ => GoFloat.nan
  | _, GoFloat.nan => GoFloat.nan
  | GoFloat.inf s, GoFloat.inf s2 => if s = s2 then GoFloat.inf s else GoFloat.nan
  | GoFloat.inf s, GoFloat.val _ => GoFloat.inf s
  | GoFloat.val _, GoFloat.inf s => GoFloat.inf s
  | GoFloat.val x, GoFloat.val y => GoFloat.val (x + y)

/-- IEEE negation on symbolic floats. -/
noncomputable def negF : GoFloat → GoFloat
  | GoFloat.nan => GoFloat.nan
  | GoFloat.inf s => GoFloat.inf !s
  | GoFloat.val x => GoFloat.val (-x)

/-- IEEE subtraction on symbolic floats. -/
noncomputable def subF (a b : GoFloat) : GoFloat := addF a (negF b)

open Classical in
/-- IEEE multiplication on symbolic floats: NaN absorbs and zero times
infinity is NaN. -/
noncomputable def mulF : GoFloat → GoFloat → GoFloat
  | GoFloat.nan, _ => GoFloat.nan
  | _, GoFloat.nan => GoFloat.nan
  | GoFloat.inf s, GoFloat.inf s2 => GoFloat.inf (s = s2)
  | GoFloat.inf s, GoFloat.val x =>
      if x = 0 then GoFloat.nan else if 0 < x then GoFloat.inf s else GoFloat.inf !s
  | GoFloat.val x, GoFloat.inf s =>
      if x = 0 then GoFloat.nan else if 0 < x then GoFloat.inf s else GoFloat.inf !s
  | GoFloat.val x, GoFloat.val y => GoFloat.val (x * y)

open Classical in
/-- IEEE division on symbolic floats: 0/0 and ∞/∞ are NaN, x/0 for x ≠ 0 is a
signed infinity, x/∞ is zero. -/
noncomputable def divF : GoFloat → GoFloat → GoFloat
  | GoFloat.nan, _ => GoFloat.nan
  | _, GoFloat.nan => GoFloat.nan
  | GoFloat.inf _, GoFloat.inf _ => GoFloat.nan
  | GoFloat.inf s, GoFloat.val _ => GoFloat.inf s
  | GoFloat.val _, GoFloat.inf _ => GoFloat.val 0
  | GoFloat.val x, GoFloat.val y =>
      if y = 0 then
        if x = 0 then GoFloat.nan else if 0 < x then GoFloat.inf true else GoFloat.inf false
      else GoFloat.val (x / y)

open Classical in
/-- math.Log2 on symbolic floats: Log2(NaN) = NaN, Log2(+∞) = +∞,
Log2(x) = NaN for x < 0, Log2(0) = −∞, else log x / log 2. -/
noncomputable def log2F : GoFloat → GoFloat
  | GoFloat.nan => GoFloat.nan
  | GoFloat.inf true => GoFloat.inf true
  | GoFloat.inf false => GoFloat.nan
  | GoFloat.val x =>
      if x < 0 then GoFloat.nan
      else if x = 0 then GoFloat.inf false
      else GoFloat.val (Real.log x / Real.log 2)

/-- math.Pow(v, 2) as used by ChiSqTest: squaring. -/
noncomputable def powF2 (x : GoFloat) : GoFloat := mulF x x

open Classical in
/-- Go float64 `>=` comparison: false whenever either side is NaN. -/
noncomputable def geF : GoFloat → GoFloat → Bool
  | GoFloat.nan, _ => false
  | _, GoFloat.nan => false
  | GoFloat.inf true, _ => true
  | _, GoFloat.inf true => false
  | GoFloat.inf false, GoFloat.inf false => true
  | GoFloat.inf false, GoFloat.val _ => false
  | GoFloat.val _, GoFloat.inf false => true
  | GoFloat.val x, GoFloat.val y => decide (y ≤ x)

lemma addF_nan_left (x : GoFloat) : addF GoFloat.nan x = GoFloat.nan := by
  cases x <;> rfl

lemma addF_nan_right (x : GoFloat) : addF x GoFloat.nan = GoFloat.nan := by
  cases x <;> rfl

lemma mulF_nan_left (x : GoFloat) : mulF GoFloat.nan x = GoFloat.nan := by
  cases x <;> rfl

/-- One term of the entropy loop (part_001 lines 402-405):
`p := count/total; p * Log2(p)`. -/
noncomputable def entTerm (totalCounter : Fin 256 → ℕ) (readBytesCount : ℤ) (i : Fin 256) :
    GoFloat :=
  let p := divF (GoFloat.val ((totalCounter i : ℕ) : ℝ)) (GoFloat.val ((readBytesCount : ℤ) : ℝ))
  mulF p (log2F p)

/-- The `for i := 0; i < 256; i++` accumulation loop of EntropyEstimation. -/
noncomputable def entLoop (totalCounter : Fin 256 → ℕ) (readBytesCount : ℤ) (i : ℕ)
    (acc : GoFloat) : GoFloat :=
  if h : i < 256 then
    entLoop totalCounter readBytesCount (i + 1) (addF acc (entTerm totalCounter readBytesCount ⟨i, h⟩))
  else acc
termination_by 256 - i

/-- EntropyEstimation (part_001 lines 399-407): negated accumulated sum. -/
noncomputable def EntropyEstimation (totalCounter : Fin 256 → ℕ) (readBytesCount : ℤ) :
    GoFloat :=
  negF (entLoop totalCounter readBytesCount 0 (GoFloat.val 0))

/-- One term of the chi-squared loop (part_000 lines 31-36):
`Pow(observed - expected, 2) / expected` with `expected = total/256`. -/
noncomputable def chiTerm (totalCounter : Fin 256 → ℕ) (readBytesCount : ℤ) (i : Fin 256) :
    GoFloat :=
  let observed := GoFloat.val ((totalCounter i : ℕ) : ℝ)
  let expected := GoFloat.val (((readBytesCount : ℤ) : ℝ) / 256)
  divF (powF2 (subF observed expected)) expected

/-- The accumulation loop of ChiSqTest. -/
noncomputable def chiLoop (totalCounter : Fin 256 → ℕ) (readBytesCount : ℤ) (i : ℕ)
    (acc : GoFloat) : GoFloat :=
  if h : i < 256 then
    chiLoop totalCounter readBytesCount (i + 1) (addF acc (chiTerm totalCounter readBytesCount ⟨i, h⟩))
  else acc
termination_by 256 - i

/-- ChiSqTest (part_000 lines 25-38). -/
noncomputable def ChiSqTest (totalCounter : Fin 256 → ℕ) (readBytesCount : ℤ) : GoFloat :=
  chiLoop totalCounter readBytesCount 0 (GoFloat.val 0)

lemma entLoop_nan (c : Fin 256 → ℕ) (t : ℤ) (i : ℕ) :
    entLoop c t i GoFloat.nan = GoFloat.nan := by
  rw [entLoop]
  by_cases h : i < 256
  · rw [dif_pos h, addF_nan_left]
    exact entLoop_nan c t (i + 1)
  · rw [dif_neg h]
termination_by 256 - i

lemma chiLoop_nan (c : Fin 256 → ℕ) (t : ℤ) (i : ℕ) :
    chiLoop c t i GoFloat.nan = GoFloat.nan := by
  rw [chiLoop]
  by_cases h : i < 256
  · rw [dif_pos h, addF_nan_left]
    exact chiLoop_nan c t (i + 1)
  · rw [dif_neg h]
termination_by 256 - i

/-- The all-zero histogram of a zero-byte input. -/
def zeroCounter : Fin 256 → ℕ := fun _ => 0

lemma entTerm_zero_total (i : Fin 256) : entTerm zeroCounter 0 i = GoFloat.nan := by
  rw [entTerm]
  have hp : divF (GoFloat.val ((zeroCounter i : ℕ) : ℝ)) (GoFloat.val ((0 : ℤ) : ℝ)) =
      GoFloat.nan := by
    rw [show ((zeroCounter i : ℕ) : ℝ) = 0 by simp [zeroCounter], show (((0 : ℤ) : ℤ) : ℝ) = 0 by simp]
    rw [divF]
    rw [if_pos rfl, if_pos rfl]
  rw [hp, mulF_nan_left]

lemma chiTerm_zero_total (i : Fin 256) : chiTerm zeroCounter 0 i = GoFloat.nan := by
  rw [chiTerm]
  have hobs : ((zeroCounter i : ℕ) : ℝ) = 0 := by simp [zeroCounter]
  have hexp : (((0 : ℤ) : ℤ) : ℝ) / 256 = 0 := by norm_num
  rw [hobs, hexp]
  have hsub : subF (GoFloat.val 0) (GoFloat.val 0) = GoFloat.val 0 := by
    rw [subF, negF, addF]
    norm_num
  rw [hsub]
  have hpow : powF2 (GoFloat.val 0) = GoFloat.val 0 := by
    rw [powF2, mulF]
    norm_num
  rw [hpow, divF, if_pos rfl, if_pos rfl]

/-- On a zero-byte input (empty histogram, readBytesCount 0), EntropyEstimation
and ChiSqTest return NaN — every term is 0/0 or divides by a zero expected
count — and the functions have no error channel at all (their Go types are
bare float64): a NaN propagates rather than an UndefinedStatistic error being
raised. -/
theorem c4_zero_input_returns_nan :
    EntropyEstimation zeroCounter 0 = GoFloat.nan ∧
    ChiSqTest zeroCounter 0 = GoFloat.nan := by
  constructor
  · rw [EntropyEstimation, entLoop, dif_pos (by norm_num : (0:ℕ) < 256),
      entTerm_zero_total, addF_nan_right, entLoop_nan]
    rfl
  · rw [ChiSqTest, chiLoop, dif_pos (by norm_num : (0:ℕ) < 256),
      chiTerm_zero_total, addF_nan_right, chiLoop_nan]

/-- Amended zero-input semantics: the entropy statistic of a zero-byte input is
the NaN value (not a finite number and not an explicit error), and the NaN
makes the entropy vote flag (statistic ≥ threshold) false in the fusion. -/
theorem c4_amended_nan_semantics :
    EntropyEstimation zeroCounter 0 = GoFloat.nan ∧
    (∀ x : ℝ, EntropyEstimation zeroCounter 0 ≠ GoFloat.val x) ∧
    geF (EntropyEstimation zeroCounter 0) (GoFloat.val (795 / 100)) = false := by
  have h : EntropyEstimation zeroCounter 0 = GoFloat.nan := by
    rw [EntropyEstimation, entLoop, dif_pos (by norm_num : (0:ℕ) < 256),
      entTerm_zero_total, addF_nan_right, entLoop_nan]
    rfl
  refine ⟨h, ?_, ?_⟩
  · intro x hx
    rw [h] at hx
    exact GoFloat.noConfusion hx
  · rw [h]
    rfl

/-- Histogram of a 1-byte input consisting of the single byte 0. -/
def oneByteCounter : Fin 256 → ℕ := fun i => if i = 0 then 1 else 0

lemma entTerm_oneByte_zero : entTerm oneByteCounter 1 ⟨0, by norm_num⟩ = GoFloat.val 0 := by
  rw [entTerm]
  have hc : ((oneByteCounter ⟨0, by norm_num⟩ : ℕ) : ℝ) = 1 := by
    simp [oneByteCounter]
  have ht : (((1 : ℤ) : ℤ) : ℝ) = 1 := by norm_num
  rw [hc, ht]
  have hp : divF (GoFloat.val 1) (GoFloat.val 1) = GoFloat.val 1 := by
    rw [divF, if_neg (by norm_num : ¬(1:ℝ) = 0)]
    norm_num
  rw [hp]
  have hl : log2F (GoFloat.val 1) = GoFloat.val 0 := by
    rw [log2F, if_neg (by norm_num : ¬(1:ℝ) < 0), if_neg (by norm_num : ¬(1:ℝ) = 0)]
    simp [Real.log_one]
  rw [hl, mulF]
  norm_num

lemma entTerm_oneByte_one : entTerm oneByteCounter 1 ⟨1, by norm_num⟩ = GoFloat.nan := by
  rw [entTerm]
  have hc : ((oneByteCounter ⟨1, by norm_num⟩ : ℕ) : ℝ) = 0 := by
    simp [oneByteCounter, Fin.ext_iff]
  have ht : (((1 : ℤ) : ℤ) : ℝ) = 1 := by norm_num
  rw [hc, ht]
  have hp : divF (GoFloat.val 0) (GoFloat.val 1) = GoFloat.val 0 := by
    rw [divF, if_neg (by norm_num : ¬(1:ℝ) = 0)]
    norm_num
  rw [hp]
  have hl : log2F (GoFloat.val 0) = GoFloat.inf false := by
    rw [log2F, if_neg (by norm_num : ¬(0:ℝ) < 0), if_pos rfl]
  rw [hl, mulF, if_pos rfl]

/-- On the 1-byte input [0] (histogram: one count in bin 0, total 1),
EntropyEstimation returns NaN: the 255 empty bins each contribute
`0 * Log2(0) = 0 * (−∞) = NaN`.  The claimed bounds 0 ≤ entropy ≤ 8 (and
entropy = 0 for a constant input) fail for every histogram with an empty
bin because the code does not guard the p = 0 case of p·log2(p). -/
theorem c6_entropy_nan_on_empty_bin :
    EntropyEstimation oneByteCounter 1 = GoFloat.nan ∧
    GoFloat.nan ≠ GoFloat.val 0 := by
  constructor
  · rw [EntropyEstimation, entLoop, dif_pos (by norm_num : (0:ℕ) < 256),
      entTerm_oneByte_zero]
    rw [show addF (GoFloat.val 0) (GoFloat.val 0) = GoFloat.val 0 by rw [addF]; norm_num]
    rw [entLoop, dif_pos (by norm_num : (1:ℕ) < 256), entTerm_oneByte_one,
      addF_nan_right, entLoop_nan]
    rfl
  · intro h
    exact GoFloat.noConfusion h

/-! ### Autocorrelation test (autocorr.go lines 30-89)

The per-block score uses Pearson correlation from the stats library
(population standard deviations and covariance); the float64 arithmetic is
idealised over ℝ.  The library's error returns (empty input, size mismatch,
which the block loop never produces) are modelled as the 0 result. -/

/-- meanBytes (common.go lines 67-76): arithmetic mean of a byte buffer. -/
noncomputable def meanBytes (array : List (Fin 256)) : ℝ :=
  (array.map fun v => ((v : ℕ) : ℝ)).sum / array.length

/-- meanFloats (common.go lines 78-87): arithmetic mean of a float slice. -/
noncomputable def meanFloats (array : List ℝ) : ℝ := array.sum / array.length

/-- Population variance as computed by the stats library. -/
noncomputable def popVariance (xs : List ℝ) : ℝ :=
  ((xs.map fun x => (x - meanFloats xs) ^ 2).sum) / xs.length

/-- Population standard deviation (stats.StandardDeviationPopulation). -/
noncomputable def popStdDev (xs : List ℝ) : ℝ := Real.sqrt (popVariance xs)

/-- Population covariance (stats.CovariancePopulation). -/
noncomputable def popCovariance (xs ys : List ℝ) : ℝ :=
  (List.zipWith (fun a b => (a - meanFloats xs) * (b - meanFloats ys)) xs ys).sum / xs.length

open Classical in
/-- stats.Correlation: covariance over the product of population standard
deviations; 0 when either deviation is zero; empty or mismatched inputs (error
returns, never produced by the block loop) modelled as 0. -/
noncomputable def correlation (xs ys : List ℝ) : ℝ :=
  if xs = [] ∨ ys = [] ∨ xs.length ≠ ys.length then 0
  else if popStdDev xs = 0 ∨ popStdDev ys = 0 then 0
  else popCovariance xs ys / (popStdDev xs * popStdDev ys)

/-- Per-block autocorrelation score (autocorr.go lines 50-81): center the block
bytes by the block mean, correlate the buffer against itself at lags
1..maxLag−1 with maxLag = min(length, 50), and take the mean of the absolute
correlations. -/
noncomputable def blockScore (block : List (Fin 256)) : ℝ :=
  let inputMean := meanBytes block
  let floatBuffer := block.map fun v => ((v : ℕ) : ℝ) - inputMean
  let maxLag := if floatBuffer.length < 50 then floatBuffer.length else 50
  let results := (List.range' 1 (maxLag - 1)).map fun lag =>
    |correlation (floatBuffer.drop lag) (floatBuffer.take (floatBuffer.length - lag))|
  meanFloats results

/-- Block loop of AutoCorrelation (autocorr.go lines 45-82): a zero-length
read stops the loop; a short read (`len(buffer) > bytesRead`) stops the loop
BEFORE computing a score for the partial block; only full-size blocks
contribute scores. -/
noncomputable def autocorrLoop (blockSize : ℕ) (data : List (Fin 256)) (acc : List ℝ) :
    List ℝ :=
  if h : blockSize = 0 ∨ data = [] then acc
  else if min blockSize data.length < blockSize then acc
  else autocorrLoop blockSize (data.drop blockSize) (acc ++ [blockScore (data.take blockSize)])
termination_by data.length
decreasing_by
  push_neg at h
  simp only [List.length_drop]
  have hd : data.length ≠ 0 := fun hc => h.2 (List.length_eq_zero.mp hc)
  omega

open Classical in
/-- AutoCorrelation (autocorr.go lines 30-89): the population standard
deviation of the per-block scores; when the score list is empty the stats
library returns an error and the function returns 0.0. -/
noncomputable def AutoCorrelation (file : List (Fin 256)) (blockSize : ℕ) : ℝ :=
  let totalAutocorr := autocorrLoop blockSize file []
  if totalAutocorr = [] then 0 else popStdDev totalAutocorr

/-- For any input smaller than one full block (and a positive block size), the
first read is short, the loop exits before scoring any block, the score list
is empty, and AutoCorrelation returns exactly 0; consequently the statistic
satisfies the ≤ 0.125 autocorrelation threshold, so the flag is true. -/
theorem c10_small_input_zero (file : List (Fin 256)) (blockSize : ℕ)
    (hB : 0 < blockSize) (hsmall : file.length < blockSize) :
    AutoCorrelation file blockSize = 0 ∧
    AutoCorrelation file blockSize ≤ (0.125 : ℝ) := by
  have hloop : autocorrLoop blockSize file [] = [] := by
    rw [autocorrLoop]
    by_cases h : blockSize = 0 ∨ file = []
    · rw [dif_pos h]
    · rw [dif_neg h, if_pos]
      push_neg at h
      omega
  have h0 : AutoCorrelation file blockSize = 0 := by
    rw [AutoCorrelation]
    simp [hloop]
  exact ⟨h0, by rw [h0]; norm_num⟩

/-- Witness for the small-input autocorrelation result on a 3-byte file with
the default 1 MiB block size. -/
theorem c10_small_input_zero_witness :
    AutoCorrelation [0, 1, 2] 1048576 = 0 ∧
    AutoCorrelation [0, 1, 2] 1048576 ≤ (0.125 : ℝ) :=
  c10_small_input_zero [0, 1, 2] 1048576 (by norm_num) (by norm_num)

/-! ### Encryption-tool signature detection (signatures.go lines 45-176)

Files are hex-encoded with lowercase digits (encoding/hex) and matched against
the six rules of EncToolDetection in its default (non hail-mary) mode.  All
six patterns are case-insensitive hex literals except the FileVault rule,
whose regex inserts a 456-character wildcard between two literals; both forms
are modelled exactly.  FindAll returns leftmost non-overlapping matches and
FindBytesPattern halves the start/end position count, i.e. counts matches. -/

/-- The sixteen lowercase hex digit characters of encoding/hex. -/
def hexDigits : List Char := "0123456789abcdef".toList

/-- Hex encoding of one byte: high nibble then low nibble. -/
def hexOfByte (b : Fin 256) : List Char :=
  [hexDigits.getD ((b : ℕ) / 16) '0', hexDigits.getD ((b : ℕ) % 16) '0']

/-- hex.EncodeToString over a byte buffer, as a character list. -/
def hexEncode (data : List (Fin 256)) : List Char := (data.map hexOfByte).join

/-- A compiled signature pattern: a hex literal, or the FileVault form
`41505342` + any 456 characters + `0800000000000000`. -/
inductive HexPat
  | lit : List Char → HexPat
  | apsb : HexPat

/-- Head of the FileVault pattern (hex of "APSB"). -/
def apsbHead : List Char := "41505342".toList

/-- Tail of the FileVault pattern. -/
def apsbTail : List Char := "0800000000000000".toList

/-- Length of a match of the pattern at the head of the string, when there is
one: a literal matches its own length, the FileVault pattern matches 8 + 456 +
16 = 480 characters. -/
def matchLenAt : HexPat → List Char → Option ℕ
  | HexPat.lit cs, s => if cs ≠ [] ∧ s.take cs.length = cs then some cs.length else none
  | HexPat.apsb, s =>
      if s.take 8 = apsbHead ∧ 480 ≤ s.length ∧ (s.drop 464).take 16 = apsbTail then
        some 480
      else none

/-- Leftmost non-overlapping match count (the semantics of regex FindAll): scan
left to right, and on a match resume after its end. -/
def countMatches (p : HexPat) : List Char → ℕ
  | [] => 0
  | x :: rest =>
    match matchLenAt p (x :: rest) with
    | some (L + 1) => 1 + countMatches p ((x :: rest).drop (L + 1))
    | _ => countMatches p rest
termination_by s => s.length
decreasing_by
  · simp only [List.length_drop, List.length_cons]
    omega
  · simp

/-- FindBytesPattern (signatures.go lines 45-49): match count of a pattern in
hex-encoded content (len(FindAll)/2 in the source, i.e. the number of
matches). -/
def FindBytesPattern (data : List Char) (regex : HexPat) : ℕ := countMatches regex data

/-- Block-by-block full scan (signatures.go lines 132-148, the sector = 0
branch): every block, including a short trailing one, is hex-encoded and
counted; a zero-length read stops the scan. -/
def scanLoop (blockSize : ℕ) (data : List (Fin 256)) (p : HexPat) : ℕ :=
  if h : blockSize = 0 ∨ data = [] then 0
  else FindBytesPattern (hexEncode (data.take blockSize)) p + scanLoop blockSize (data.drop blockSize) p
termination_by data.length
decreasing_by
  push_neg at h
  simp only [List.length_drop]
  have hd : data.length ≠ 0 := fun hc => h.2 (List.length_eq_zero.mp hc)
  omega

/-- Byte offset of the single-shot probe (signatures.go lines 150-155): a
negative sector N seeks to end-of-file + blockSize·(|N|−2); a positive sector
N seeks to (blockSize−1)·(N−1) from the start (so sector 1 probes the first
block, at offset 0). -/
def sectorStart (blockSize : ℕ) (sector : ℤ) (fileLen : ℕ) : ℤ :=
  if sector < 0 then (fileLen : ℤ) + (blockSize : ℤ) * (|sector| - 2)
  else ((blockSize : ℤ) - 1) * (sector - 1)

/-- One rule of the default-mode scan (signatures.go lines 126-171): sector 0
scans the whole file; a nonzero sector seeks once and reads one block.  The
result is none when the run does not complete deterministically: a seek to a
negative offset is a fatal `log.Fatalln` (aborting the whole program), and a
zero-length read breaks out of the rule loop, leaving the remaining rules'
counts dependent on Go's randomised map iteration order. -/
def probeRule (file : List (Fin 256)) (blockSize : ℕ) (p : HexPat) (sector : ℤ) : Option ℕ :=
  if sector = 0 then some (scanLoop blockSize file p)
  else if sectorStart blockSize sector file.length < 0 then none
  else if (file.drop (sectorStart blockSize sector file.length).toNat).take blockSize = [] then
    none
  else
    some (FindBytesPattern
      (hexEncode ((file.drop (sectorStart blockSize sector file.length).toNat).take blockSize)) p)

/-- FreeBSD GELI pattern (hex of "GEOM::ELI"), sector −1. -/
def geliPat : HexPat := HexPat.lit "47454f4d3a3a454c49".toList

/-- BitLocker pattern, sector 1. -/
def bitlockerPat : HexPat := HexPat.lit "eb58902d4656452d46532d0002080000".toList

/-- LUKSv1 pattern (hex 4c554b53babe0001), sector 1. -/
def luksv1Pat : HexPat := HexPat.lit "4c554b53babe0001".toList

/-- LUKSv2 pattern (hex 4c554b53babe0002), sector 1. -/
def luksv2Pat : HexPat := HexPat.lit "4c554b53babe0002".toList

/-- PGP WDE pattern, sector 1. -/
def pgpwdePat : HexPat := HexPat.lit "eb489050475047554152440000000000".toList

/-- EncToolDetection (signatures.go lines 68-176) in default mode, as the map
of per-rule counts; some counts exactly when every rule's probe completes (no
fatal seek error and no mid-loop break, in which case the result does not
depend on the randomised iteration order of the Go signature map). -/
def EncToolDetection (file : List (Fin 256)) (blockSize : ℕ) : Option EncToolCounts := do
  let geli ← probeRule file blockSize geliPat (-1)
  let bitlocker ← probeRule file blockSize bitlockerPat 1
  let luksv1 ← probeRule file blockSize luksv1Pat 1
  let luksv2 ← probeRule file blockSize luksv2Pat 1
  let filevault ← probeRule file blockSize HexPat.apsb 0
  let pgpwde ← probeRule file blockSize pgpwdePat 1
  pure ⟨geli, bitlocker, luksv1, luksv2, filevault, pgpwde⟩

/-- The LUKSv1 magic bytes 4c 55 4b 53 ba be 00 01. -/
def luksMagic : List (Fin 256) := [0x4c, 0x55, 0x4b, 0x53, 0xba, 0xbe, 0x00, 0x01]

lemma hexEncode_append (a b : List (Fin 256)) :
    hexEncode (a ++ b) = hexEncode a ++ hexEncode b := by
  simp [hexEncode]

lemma countMatches_cons (p : HexPat) (x : Char) (rest : List Char) :
    countMatches p (x :: rest) =
      match matchLenAt p (x :: rest) with
      | some (L + 1) => 1 + countMatches p ((x :: rest).drop (L + 1))
      | _ => countMatches p rest := by
  rw [countMatches]

lemma one_le_countMatches_lit (cs s : List Char) (hne : cs ≠ [])
    (htake : s.take cs.length = cs) : 1 ≤ countMatches (HexPat.lit cs) s := by
  cases s with
  | nil =>
    exfalso
    apply hne
    rw [← htake]
    simp
  | cons x rest =>
    rw [countMatches_cons]
    have hm : matchLenAt (HexPat.lit cs) (x :: rest) = some cs.length := by
      rw [matchLenAt, if_pos ⟨hne, htake⟩]
    rw [hm]
    obtain ⟨c, cs', rfl⟩ : ∃ c cs', cs = c :: cs' := by
      cases cs with
      | nil => exact absurd rfl hne
      | cons c cs' => exact ⟨c, cs', rfl⟩
    simp only [List.length_cons]
    show 1 ≤ 1 + countMatches (HexPat.lit (c :: cs')) ((x :: rest).drop (cs'.length + 1))
    omega

lemma probeRule_sector_one (file : List (Fin 256)) (B : ℕ) (p : HexPat)
    (hB : 1 ≤ B) (hfile : file ≠ []) :
    probeRule file B p 1 = some (FindBytesPattern (hexEncode (file.take B)) p) := by
  have hst : sectorStart B 1 file.length = 0 := by
    rw [sectorStart, if_neg (by norm_num : ¬(1:ℤ) < 0)]
    ring
  rw [probeRule, if_neg (by norm_num : ¬(1:ℤ) = 0), hst,
    if_neg (by norm_num : ¬(0:ℤ) < 0)]
  have hdrop : file.drop (Int.toNat 0) = file := by simp
  rw [hdrop]
  have hne : file.take B ≠ [] := by
    intro h
    rcases List.take_eq_nil_iff.mp h with h | h
    · omega
    · exact hfile h
  rw [if_neg hne]

lemma probeRule_sector_negOne (file : List (Fin 256)) (B : ℕ) (p : HexPat)
    (hB : 1 ≤ B) (hle : B ≤ file.length) :
    probeRule file B p (-1) =
      some (FindBytesPattern (hexEncode ((file.drop (file.length - B)).take B)) p) := by
  have hst : sectorStart B (-1) file.length = ((file.length - B : ℕ) : ℤ) := by
    rw [sectorStart, if_pos (by norm_num : (-1:ℤ) < 0)]
    rw [Int.ofNat_sub hle]
    simp
    ring
  rw [probeRule, if_neg (by norm_num : ¬(-1:ℤ) = 0), hst,
    if_neg (by simp : ¬((file.length - B : ℕ) : ℤ) < 0)]
  rw [Int.toNat_ofNat]
  have hlendrop : (file.drop (file.length - B)).length = B := by
    rw [List.length_drop]
    omega
  have hne : (file.drop (file.length - B)).take B ≠ [] := by
    intro h
    have := congrArg List.length h
    rw [List.length_take, hlendrop] at this
    simp at this
    omega
  rw [if_neg hne]

lemma probeRule_sector_zero (file : List (Fin 256)) (B : ℕ) (p : HexPat) :
    probeRule file B p 0 = some (scanLoop B file p) := by
  rw [probeRule, if_pos rfl]

/-- Hex encoding of the LUKSv1 magic is exactly the LUKSv1 pattern literal. -/
lemma hexEncode_luksMagic : hexEncode luksMagic = "4c554b53babe0001".toList := by
  rfl

/-- Amended Stage-0 gate: for every file at least one block long (block size at
least the 8 magic bytes) that starts with the LUKSv1 magic — the start of the
first block, which the 1-indexed sector directive 1 probes at byte offset 0 —
EncToolDetection completes with a LUKSv1 count of at least 1, and the decision
fusion takes the signature gate regardless of the downstream statistics. -/
theorem c5_amended_luks_gate (rest : List (Fin 256)) (B : ℕ)
    (hB : 8 ≤ B) (hlen : B ≤ 8 + rest.length) :
    ∃ counts : EncToolCounts,
      EncToolDetection (luksMagic ++ rest) B = some counts ∧
      1 ≤ counts.luksv1 ∧
      ∀ (a k cmp s e : ℚ) (parted : String),
        (mainDecision counts a k cmp s e parted).tag = StageTag.sigGate := by
  have hmlen : luksMagic.length = 8 := rfl
  have hflen : (luksMagic ++ rest).length = 8 + rest.length := by
    rw [List.length_append, hmlen]
  have hfile : luksMagic ++ rest ≠ [] := by
    intro h
    have := congrArg List.length h
    rw [hflen] at this
    simp at this
  have hB1 : (1:ℕ) ≤ B := by omega
  have hleB : B ≤ (luksMagic ++ rest).length := by omega
  have hg := probeRule_sector_negOne (luksMagic ++ rest) B geliPat hB1 hleB
  have hbit := probeRule_sector_one (luksMagic ++ rest) B bitlockerPat hB1 hfile
  have hluks1 := probeRule_sector_one (luksMagic ++ rest) B luksv1Pat hB1 hfile
  have hluks2 := probeRule_sector_one (luksMagic ++ rest) B luksv2Pat hB1 hfile
  have hpgp := probeRule_sector_one (luksMagic ++ rest) B pgpwdePat hB1 hfile
  have hfv := probeRule_sector_zero (luksMagic ++ rest) B HexPat.apsb
  have hcount : 1 ≤ FindBytesPattern (hexEncode ((luksMagic ++ rest).take B)) luksv1Pat := by
    have htake : (luksMagic ++ rest).take B = luksMagic ++ rest.take (B - 8) := by
      rw [List.take_append_eq_append_take, hmlen,
        List.take_all_of_le (by omega : luksMagic.length ≤ B)]
    rw [FindBytesPattern, htake, hexEncode_append, luksv1Pat]
    apply one_le_countMatches_lit _ _ (by simp)
    rw [← hexEncode_luksMagic]
    exact List.take_left _ _
  refine ⟨⟨FindBytesPattern (hexEncode (((luksMagic ++ rest).drop ((luksMagic ++ rest).length - B)).take B)) geliPat,
      FindBytesPattern (hexEncode ((luksMagic ++ rest).take B)) bitlockerPat,
      FindBytesPattern (hexEncode ((luksMagic ++ rest).take B)) luksv1Pat,
      FindBytesPattern (hexEncode ((luksMagic ++ rest).take B)) luksv2Pat,
      scanLoop B (luksMagic ++ rest) HexPat.apsb,
      FindBytesPattern (hexEncode ((luksMagic ++ rest).take B)) pgpwdePat⟩, ?_, hcount, ?_⟩
  · rw [EncToolDetection, hg, hbit, hluks1, hluks2, hfv, hpgp]
    rfl
  · intro a k cmp s e parted
    have hne0 : (⟨FindBytesPattern (hexEncode (((luksMagic ++ rest).drop ((luksMagic ++ rest).length - B)).take B)) geliPat,
        FindBytesPattern (hexEncode ((luksMagic ++ rest).take B)) bitlockerPat,
        FindBytesPattern (hexEncode ((luksMagic ++ rest).take B)) luksv1Pat,
        FindBytesPattern (hexEncode ((luksMagic ++ rest).take B)) luksv2Pat,
        scanLoop B (luksMagic ++ rest) HexPat.apsb,
        FindBytesPattern (hexEncode ((luksMagic ++ rest).take B)) pgpwdePat⟩ : EncToolCounts) ≠
        noEncToolResults := by
      intro heq
      have := congrArg EncToolCounts.luksv1 heq
      simp only [noEncToolResults] at this
      omega
    rw [mainDecision, if_pos hne0]

/-- Witness for the amended LUKSv1 gate: the 8-byte file consisting of exactly
the magic, probed with block size 8. -/
theorem c5_amended_luks_gate_witness :
    ∃ counts : EncToolCounts,
      EncToolDetection (luksMagic ++ []) 8 = some counts ∧
      1 ≤ counts.luksv1 ∧
      (mainDecision counts 0 0 1 200 0 "ext4").tag = StageTag.sigGate := by
  obtain ⟨counts, h1, h2, h3⟩ :=
    c5_amended_luks_gate [] 8 (by norm_num) (by simp)
  exact ⟨counts, h1, h2, h3 0 0 1 200 0 "ext4"⟩

/-- A file containing the LUKSv1 magic but smaller than one block (here the
8-byte file that is exactly the magic, with the default 1 MiB block size)
makes EncToolDetection abort instead of returning a count: the GELI rule's
backward seek resolves to the negative offset 8 − 1048576, the seek fails, and
`log.Fatalln` kills the run (modelled as the none result) — so the claim's
"LUKSv1 count ≥ 1 for every file containing the magic" fails. -/
theorem c5_small_file_aborts :
    EncToolDetection luksMagic 1048576 = none ∧ luksMagic.length < 1048576 := by
  constructor
  · have hst : sectorStart 1048576 (-1) luksMagic.length = (8 : ℤ) - 1048576 := by
      rw [show luksMagic.length = 8 from rfl, sectorStart,
        if_pos (by norm_num : (-1:ℤ) < 0)]
      norm_num
    have hgeli : probeRule luksMagic 1048576 geliPat (-1) = none := by
      rw [probeRule, if_neg (by norm_num : ¬(-1:ℤ) = 0), hst,
        if_pos (by norm_num : (8:ℤ) - 1048576 < 0)]
    rw [EncToolDetection, hgeli]
    rfl
  · rw [show luksMagic.length = 8 from rfl]
    norm_num

end ThesisCode
